import Mathlib

/-!
Verification of the freeport port-management tool.

This file gives a shallow embedding, in Lean 4, of the parts of the Go
source that the specification's claims talk about:

* the two discovery-line parsers (internal/scan/lsof.go and
  internal/scan/ss.go),
* the kill command's state machine (cmd/kill.go), modelled as a pure
  function producing an event trace (signals sent, polls made) plus an
  outcome,
* the port allocator, in its locking variant (lock.PickAndLockTCPPort)
  and its plain variant (ports.PickTCPPort),
* the list command's filter/enrich/dedup/sort pipeline.

External effects (the kill(2) syscall, bind probes, flock acquisition,
the ps/procfs enrichment queries, the listening-state poll) are passed
in as explicit oracles, and the functions record what they did in an
event trace, so that frame claims ("no signal is sent") become
statements about the trace.

Machine integers are modelled as Lean Int/Nat; the source only compares
parsed numbers against [1, 65535], so int64 overflow (which in Go makes
strconv.Atoi return an error that every call site treats as a reject or
a zero) is immaterial to the claims and Atoi is modelled as exact
integer parsing.  String handling (strings.Fields, ToLower, LastIndex)
is modelled at ASCII level, which covers every input the claims and the
repository's own tests exercise.
-/

/-- The byte-level whitespace characters recognised by Go's
strings.Fields (unicode.IsSpace restricted to ASCII, which is all that
line-oriented tool output contains). -/
def isGoSpace (c : Char) : Bool :=
  c = ' ' || c = '\t' || c = '\n' || c = '\x0b' || c = '\x0c' || c = '\r'

/-- Worker for goFields: splits a character list into maximal runs of
non-space characters; cur is the current run, reversed. -/
def fieldsAux : List Char → List Char → List (List Char)
  | [], cur => if cur.isEmpty then [] else [cur.reverse]
  | c :: rest, cur =>
    if isGoSpace c then
      if cur.isEmpty then fieldsAux rest [] else cur.reverse :: fieldsAux rest []
    else
      fieldsAux rest (c :: cur)

/-- Go strings.Fields: split around runs of whitespace. -/
def goFields (s : String) : List String :=
  (fieldsAux s.toList []).map String.mk

/-- Numeric value of a run of decimal digits. -/
def digitsToNat (cs : List Char) : Nat :=
  cs.foldl (fun n c => n * 10 + (c.toNat - '0'.toNat)) 0

/-- Parses a nonempty all-digit character list; otherwise none. -/
def parseDigits (cs : List Char) : Option Nat :=
  if cs.isEmpty then none
  else if cs.all Char.isDigit then some (digitsToNat cs) else none

/-- Go strconv.Atoi: optional sign then at least one digit, nothing
else; none models a non-nil error (every caller either rejects on error
or substitutes zero). -/
def goAtoi (s : String) : Option Int :=
  match s.toList with
  | [] => none
  | '+' :: rest => (parseDigits rest).map Int.ofNat
  | '-' :: rest => (parseDigits rest).map (fun n => -(n : Int))
  | cs => (parseDigits cs).map Int.ofNat

/-- The characters strictly after the last ':' of the list, or none if
there is no ':' (Go strings.LastIndex plus slicing). -/
def afterLastColon : List Char → Option (List Char)
  | [] => none
  | c :: rest =>
    match afterLastColon rest with
    | some suf => some suf
    | none => if c = ':' then some rest else none

/-- scan/ss.go parsePortFromAddress: take the text after the last
colon; reject a trailing colon, a non-numeric suffix, and ports outside
[1, 65535].  scan/lsof.go applies exactly the same three checks to each
candidate token (lsof.go lines 92-99). -/
def parsePortFromAddress (addr : String) : Option Int :=
  match afterLastColon addr.toList with
  | none => none
  | some suf =>
    if suf.isEmpty then none
    else
      match goAtoi (String.mk suf) with
      | none => none
      | some p => if 1 ≤ p ∧ p ≤ 65535 then some p else none

/-- Bool test that pat is a prefix of l (ASCII, char by char). -/
def listStartsWith : List Char → List Char → Bool
  | [], _ => true
  | _ :: _, [] => false
  | p :: ps, c :: cs => p = c && listStartsWith ps cs

/-- Worker for hasSubstr: does pat occur in the list? -/
def hasSubstrAux (pat : List Char) : List Char → Bool
  | [] => pat.isEmpty
  | c :: rest => listStartsWith pat (c :: rest) || hasSubstrAux pat rest

/-- Go strings.Contains. -/
def hasSubstr (s pat : String) : Bool :=
  hasSubstrAux pat.toList s.toList

/-- ASCII lower-casing of one character. -/
def goToLowerChar (c : Char) : Char :=
  if 'A' ≤ c ∧ c ≤ 'Z' then Char.ofNat (c.toNat + 32) else c

/-- Go strings.ToLower (ASCII range, which covers the inputs the claims
are about). -/
def goToLower (s : String) : String :=
  String.mk (s.toList.map goToLowerChar)

/-- The listener record of internal/scan (scan.Listener): port, pid,
user, short command, protocol, local address, plus the enrichment
fields PPID, CommandLine, Executable, CWD, which parsing leaves at
their Go zero values. -/
structure Listener where
  port : Int
  pid : Int := 0
  user : String := ""
  command : String := ""
  proto : String := ""
  address : String := ""
  ppid : Int := 0
  commandLine : String := ""
  executable : String := ""
  cwd : String := ""
deriving Repr, DecidableEq

/-- scan/lsof.go parseLsofAddressAndPort's scan: walk the fields from
last to first (the Go loop runs i from len-1 down to 0), skip the
literal "(LISTEN)" token, and return the first token whose text after
its last colon is a numeric port in [1, 65535].  The argument is the
field list already reversed. -/
def lsofAddrPortRev : List String → Option (String × Int)
  | [] => none
  | tok :: rest =>
    if tok = "(LISTEN)" then lsofAddrPortRev rest
    else
      match parsePortFromAddress tok with
      | some p => some (tok, p)
      | none => lsofAddrPortRev rest

/-- scan/lsof.go parseLsofLine: needs at least 4 fields; command, pid
(Atoi with the error ignored, so zero on a non-numeric field) and user
are positional; the port comes from the address scan, and a zero port
rejects the line. -/
def parseLsofLine (line : String) : Option Listener :=
  let fields := goFields line
  if fields.length < 4 then none
  else
    match lsofAddrPortRev fields.reverse with
    | none => none
    | some (addr, p) =>
      some { port := p
             pid := (goAtoi (fields.getD 1 "")).getD 0
             user := fields.getD 2 ""
             command := fields.getD 0 ""
             proto := "tcp"
             address := addr }

/-- First field that contains a colon and does not contain "users:"
(the fallback scan of scan/ss.go extractSSLocal). -/
def firstColonNonUsers : List String → Option String
  | [] => none
  | f :: rest =>
    if hasSubstr f ":" && !(hasSubstr f "users:") then some f
    else firstColonNonUsers rest

/-- scan/ss.go extractSSLocal: prefer fields[3] when it contains a
colon, otherwise the first colon-bearing field that is not the process
blob. -/
def extractSSLocal (fields : List String) : Option String :=
  if fields.length > 3 && hasSubstr (fields.getD 3 "") ":" then some (fields.getD 3 "")
  else firstColonNonUsers fields

/-- First match of the regular expression pid=(\d+): the leftmost
occurrence of "pid=" followed by at least one digit, capturing the
maximal digit run (scan/ss.go ssPid). -/
def ssFindPid : List Char → Option Nat
  | [] => none
  | c :: rest =>
    if listStartsWith "pid=".toList (c :: rest) then
      let ds := ((c :: rest).drop 4).takeWhile Char.isDigit
      if ds.isEmpty then ssFindPid rest else some (digitsToNat ds)
    else ssFindPid rest

/-- First match of the regular expression "([^"]+)": the leftmost
double quote followed by at least one non-quote character and a closing
quote, capturing the run between the quotes (scan/ss.go ssProc). -/
def ssFindProc : List Char → Option (List Char)
  | [] => none
  | '"' :: rest =>
    let content := rest.takeWhile (fun c => c ≠ '"')
    if content.isEmpty then ssFindProc rest
    else
      match rest.drop content.length with
      | '"' :: _ => some content
      | _ => ssFindProc rest
  | _ :: rest => ssFindProc rest

/-- scan/ss.go parseSSLine: needs at least 4 fields; the local address
must yield a numeric port in range; pid and command name come from the
two regular expressions and default to 0 and "" when absent (the tool
omits process info when it lacks permission). -/
def parseSSLine (line : String) : Option Listener :=
  let fields := goFields line
  if fields.length < 4 then none
  else
    match extractSSLocal fields with
    | none => none
    | some loc =>
      match parsePortFromAddress loc with
      | none => none
      | some p =>
        some { port := p
               pid := ((ssFindPid line.toList).map Int.ofNat).getD 0
               command := ((ssFindProc line.toList).map String.mk).getD ""
               proto := "tcp"
               address := loc }

/-! ## The kill command (cmd/kill.go), as a pure state machine

The command's effects are captured by oracles:

* kres pid sg is the result of syscall.Kill(pid, sg): success, ESRCH
  (process already gone), or any other error;
* polls is the sequence of results of the HasTCPListenerOnPort checks
  that fit inside the escalation timeout: one entry per completed
  sleep-then-check iteration of the deadline loop (the deadline
  elapsing corresponds to the list running out).

The function returns the trace of observable events (signals sent, in
order, and polls made) together with the command's outcome: a
structured error (the RunE error return, which makes the process exit
nonzero) or the machine-readable report of the JSON output path (the
text path performs the same actions and differs only in printing). -/

/-- The three signals parseSignal accepts (cmd/kill.go parseSignal). -/
inductive Signal where
  | SIGTERM
  | SIGINT
  | SIGKILL
deriving Repr, DecidableEq

/-- Result of one syscall.Kill call, as cmd/kill.go distinguishes
them: nil error, ESRCH, or any other error. -/
inductive KillRes where
  | ok
  | esrch
  | other
deriving Repr, DecidableEq

/-- Result of one HasTCPListenerOnPort poll: still listening, no
longer listening, or a scan error. -/
inductive PollRes where
  | up
  | down
  | perr
deriving Repr, DecidableEq

/-- Observable events of a kill run. -/
inductive KillEv where
  | send (pid : Int) (sg : Signal) (res : KillRes)
  | poll (res : PollRes)
deriving Repr, DecidableEq

/-- The error returns of the kill RunE function (each makes the
process exit nonzero). -/
inductive KillFailure where
  | deniedOwnership (pid : Int) (user : String)
  | sendFailed (pid : Int)
  | scanFailed
deriving Repr, DecidableEq

/-- The machine-readable JSON payload of cmd/kill.go: a status string,
and the signaled count, signal name and target list exactly when the
corresponding code path includes them in the map. -/
structure KillReport where
  port : Int
  status : String
  signaled : Option Nat := none
  signal : Option Signal := none
  targets : Option (List Listener) := none
deriving Repr, DecidableEq

/-- Worker for resolveTargets: cmd/kill.go lines 47-58.  A listener is
kept when its port matches, its pid is positive, and its pid has not
been seen; kept pids are added to seen. -/
def resolveTargetsAux (port : Int) : List Listener → List Int → List Listener
  | [], _ => []
  | l :: rest, seen =>
    if l.port = port ∧ l.pid > 0 ∧ ¬ seen.contains l.pid then
      l :: resolveTargetsAux port rest (l.pid :: seen)
    else
      resolveTargetsAux port rest seen

/-- The resolved target snapshot for a port (cmd/kill.go lines 47-58):
the listeners on the port with positive pid, deduplicated by pid,
keeping the first record per pid. -/
def resolveTargets (port : Int) (listeners : List Listener) : List Listener :=
  resolveTargetsAux port listeners []

/-- The ownership test of cmd/kill.go line 74: a target blocks the
operation when force is not set, user.Current succeeded, and the
target's user field is nonempty and differs from the caller's
username. -/
def denies (force : Bool) (caller : Option String) (t : Listener) : Bool :=
  !force &&
    (match caller with
     | none => false
     | some u => decide (t.user ≠ "" ∧ t.user ≠ u))

/-- The initial signal loop (cmd/kill.go lines 93-103): send the
chosen signal to each target in order; ESRCH is skipped without
incrementing the signaled counter; any other error aborts the run; a
successful send increments the counter. -/
def signalPhase (sig : Signal) (kres : Int → Signal → KillRes) :
    List Listener → List KillEv × Except KillFailure Nat
  | [] => ([], Except.ok 0)
  | t :: rest =>
    let r := kres t.pid sig
    match r with
    | KillRes.other => ([KillEv.send t.pid sig r], Except.error (KillFailure.sendFailed t.pid))
    | KillRes.esrch =>
      let next := signalPhase sig kres rest
      (KillEv.send t.pid sig r :: next.1, next.2)
    | KillRes.ok =>
      let next := signalPhase sig kres rest
      (KillEv.send t.pid sig r :: next.1, next.2.map (· + 1))

/-- The JSON payload of the "signaled" paths (cmd/kill.go lines
114-120 and 132-138): status "signaled", the signaled count, and the
String() of the sig variable, which still holds the originally chosen
signal even after an escalation. -/
def mkSignaledReport (port : Int) (signaled : Nat) (sig : Signal) : KillReport :=
  { port := port, status := "signaled", signaled := some signaled, signal := some sig }

/-- The escalation deadline loop (cmd/kill.go lines 105-130), over the
list of poll results that fit in the timeout: a poll error aborts; a
"no longer listening" poll returns the signaled report early; if every
poll still sees the port listening, the deadline elapses and SIGKILL
is sent once to each target of the original snapshot, each send's
error explicitly discarded, before the same signaled report. -/
def escalationLoop (port : Int) (sig : Signal) (signaled : Nat)
    (targets : List Listener) (kres : Int → Signal → KillRes) :
    List PollRes → List KillEv × Except KillFailure KillReport
  | [] =>
    (targets.map (fun t => KillEv.send t.pid Signal.SIGKILL (kres t.pid Signal.SIGKILL)),
     Except.ok (mkSignaledReport port signaled sig))
  | r :: rest =>
    match r with
    | PollRes.perr => ([KillEv.poll r], Except.error KillFailure.scanFailed)
    | PollRes.down => ([KillEv.poll r], Except.ok (mkSignaledReport port signaled sig))
    | PollRes.up =>
      let next := escalationLoop port sig signaled targets kres rest
      (KillEv.poll r :: next.1, next.2)

/-- cmd/kill.go RunE after flag parsing: resolve targets; report idle
when there are none; check ownership of every target before any signal
is sent; report dry-run without signaling when requested; otherwise
run the signal phase and, when the timeout is positive and the chosen
signal is not already SIGKILL, the escalation loop.  timeoutPos models
killTimeout > 0. -/
def killRun (port : Int) (sig : Signal) (force dryRun timeoutPos : Bool)
    (caller : Option String) (listeners : List Listener)
    (kres : Int → Signal → KillRes) (polls : List PollRes) :
    List KillEv × Except KillFailure KillReport :=
  let targets := resolveTargets port listeners
  if targets.isEmpty then
    ([], Except.ok { port := port, status := "idle", signaled := some 0 })
  else
    match targets.find? (denies force caller) with
    | some t => ([], Except.error (KillFailure.deniedOwnership t.pid t.user))
    | none =>
      if dryRun then
        ([], Except.ok { port := port, status := "dry-run", targets := some targets })
      else
        let sent := signalPhase sig kres targets
        match sent.2 with
        | Except.error e => (sent.1, Except.error e)
        | Except.ok signaled =>
          if timeoutPos && !(sig = Signal.SIGKILL) then
            let esc := escalationLoop port sig signaled targets kres polls
            (sent.1 ++ esc.1, esc.2)
          else
            (sent.1, Except.ok (mkSignaledReport port signaled sig))

/-- Number of SIGKILL send events for a given pid in a trace. -/
def countKillSends (trace : List KillEv) (p : Int) : Nat :=
  (trace.filter (fun ev =>
    match ev with
    | KillEv.send q Signal.SIGKILL _ => q = p
    | _ => false)).length

/-- Whether a trace contains any SIGKILL send event at all. -/
def hasKillSend (trace : List KillEv) : Bool :=
  trace.any (fun ev =>
    match ev with
    | KillEv.send _ Signal.SIGKILL _ => true
    | _ => false)

/-! ## The port allocator

internal/ports/ports.go PickTCPPort (plain variant) and the lock
package's PickAndLockTCPPort (locking variant).  The bind probe
(net.Listen then Close) and the flock acquisition (tryLockPortFile)
are oracles from port number to success; the locking variant records
lock acquisitions, releases and probes in a trace, so that the set of
locks still held at the end is computable from the trace. -/

/-- ports.Range: an inclusive port range (the End field is named stop
here because end is a Lean keyword). -/
structure PortRange where
  start : Int
  stop : Int
deriving Repr, DecidableEq

/-- The ports the Go loop for p := r.Start; p <= r.End; p++ visits, in
ascending order. -/
def rangeCandidates (r : PortRange) : List Int :=
  (List.range (r.stop + 1 - r.start).toNat).map (fun i => r.start + i)

/-- The preferred ports that survive the validity skip (both variants
skip p < 1 || p > 65535), in the original order. -/
def preferValid (prefer : List Int) : List Int :=
  prefer.filter (fun p => decide (1 ≤ p) && decide (p ≤ 65535))

/-- The allocation failure: "no free TCP port found in %d-%d" with the
range bounds. -/
inductive AllocError where
  | noFreePort (start stop : Int)
deriving Repr, DecidableEq

/-- Observable events of the locking allocator. -/
inductive AllocEv where
  | lockFail (p : Int)
  | lockAcq (p : Int)
  | probeOk (p : Int)
  | probeFail (p : Int)
  | lockRel (p : Int)
deriving Repr, DecidableEq

/-- One candidate attempt of PickAndLockTCPPort (the tryPort closure):
acquire the per-port flock; on failure give up on this candidate; then
bind-probe; on probe failure close (release) the lock and give up;
otherwise succeed holding the lock. -/
def tryPort (lck probe : Int → Bool) (p : Int) : List AllocEv × Bool :=
  if !(lck p) then ([AllocEv.lockFail p], false)
  else if probe p then ([AllocEv.lockAcq p, AllocEv.probeOk p], true)
  else ([AllocEv.lockAcq p, AllocEv.probeFail p, AllocEv.lockRel p], false)

/-- Runs tryPort over a candidate list, stopping at the first
success. -/
def pickLoop (lck probe : Int → Bool) : List Int → List AllocEv × Option Int
  | [] => ([], none)
  | p :: rest =>
    let att := tryPort lck probe p
    if att.2 then (att.1, some p)
    else
      let next := pickLoop lck probe rest
      (att.1 ++ next.1, next.2)

/-- lock.PickAndLockTCPPort: try each valid preferred port in order,
then each range port ascending, with tryPort; return the first success
(its lock stays held) or the no-free-port error. -/
def PickAndLockTCPPort (lck probe : Int → Bool) (prefer : List Int) (r : PortRange) :
    List AllocEv × Except AllocError Int :=
  let pref := pickLoop lck probe (preferValid prefer)
  match pref.2 with
  | some p => (pref.1, Except.ok p)
  | none =>
    let rng := pickLoop lck probe (rangeCandidates r)
    match rng.2 with
    | some p => (pref.1 ++ rng.1, Except.ok p)
    | none => (pref.1 ++ rng.1, Except.error (AllocError.noFreePort r.start r.stop))

/-- ports.PickTCPPort: the plain variant probes each valid preferred
port then each range port and returns the first probe success; it
performs no locking at all. -/
def PickTCPPort (probe : Int → Bool) (prefer : List Int) (r : PortRange) :
    Except AllocError Int :=
  match (preferValid prefer).find? probe with
  | some p => Except.ok p
  | none =>
    match (rangeCandidates r).find? probe with
    | some p => Except.ok p
    | none => Except.error (AllocError.noFreePort r.start r.stop)

/-- The locks held after a trace: acquisitions append, releases
remove. -/
def heldAfter (evs : List AllocEv) : List Int :=
  evs.foldl
    (fun acc ev =>
      match ev with
      | AllocEv.lockAcq p => acc ++ [p]
      | AllocEv.lockRel p => acc.erase p
      | _ => acc) []

/-- The full ordered candidate list of an allocator call: valid
preferred ports first, then the range ascending. -/
def allCands (prefer : List Int) (r : PortRange) : List Int :=
  preferValid prefer ++ rangeCandidates r

/-- Modelled from the spec (claim C3's reading of section 4.5): an
allocator in which EVERY variant gates each candidate on lock
acquisition as well as the bind probe, returning the first candidate
where both succeed.  Used only to compare the plain variant against
the claim's description; the source of truth for the code is
PickTCPPort and PickAndLockTCPPort above. -/
def allocatorPerClaim (lck probe : Int → Bool) (prefer : List Int) (r : PortRange) :
    Except AllocError Int :=
  match (allCands prefer r).find? (fun p => lck p && probe p) with
  | some p => Except.ok p
  | none => Except.error (AllocError.noFreePort r.start r.stop)

/-! ## The list command pipeline (unnamed part_003 listCmd)

Enrichment (scan.EnrichListenersWithProcessInfo) consults ps and
procfs; its results are an oracle pinfo from pid to the fetched
attributes, with Go zero values standing for "unavailable".  The
pipeline's sort step calls Go sort.Slice, whose contract orders the
slice by the comparison function but is documented as not guaranteed
to be stable (sort.SliceStable is the stable variant); it is therefore
modelled relationally: listSortRel inp out holds exactly when out is a
permutation of inp that is sorted by port then pid. -/

/-- What the enrichment queries return for one pid: zero/empty fields
model a process that exited or information the OS refused. -/
structure ProcInfo where
  ppid : Int := 0
  commandLine : String := ""
  cwd : String := ""
  executable : String := ""
deriving Repr, DecidableEq

/-- Enrichment of a single record (fillFromPS and fillProcPaths): each
field is overwritten only when the query produced a usable value. -/
def enrichOne (pinfo : Int → ProcInfo) (l : Listener) : Listener :=
  let i := pinfo l.pid
  { l with
    ppid := if i.ppid > 0 then i.ppid else l.ppid
    commandLine := if i.commandLine ≠ "" then i.commandLine else l.commandLine
    cwd := if i.cwd ≠ "" then i.cwd else l.cwd
    executable := if i.executable ≠ "" then i.executable else l.executable }

/-- scan.EnrichListenersWithProcessInfo: the byPID map keeps a pointer
to the FIRST record of each positive pid, and only that record is
enriched; records with pid <= 0 and later duplicates of a pid are left
untouched.  seen carries the pids already claimed. -/
def enrichListenersAux (pinfo : Int → ProcInfo) : List Listener → List Int → List Listener
  | [], _ => []
  | l :: rest, seen =>
    if l.pid > 0 ∧ ¬ seen.contains l.pid then
      enrichOne pinfo l :: enrichListenersAux pinfo rest (l.pid :: seen)
    else
      l :: enrichListenersAux pinfo rest seen

/-- Enrichment over a whole listener list. -/
def enrichListeners (pinfo : Int → ProcInfo) (ls : List Listener) : List Listener :=
  enrichListenersAux pinfo ls []

/-- part_003 matchesFilter: case-insensitive substring match against
command name, executable path, or full command line (the filter
argument is already lower-cased by the caller). -/
def matchesFilter (l : Listener) (filter : String) : Bool :=
  hasSubstr (goToLower l.command) filter ||
  hasSubstr (goToLower l.executable) filter ||
  hasSubstr (goToLower l.commandLine) filter

/-- The filter stage of part_003 listCmd (lines 50-62): when a filter
argument is present, enrich first ONLY when the verbose flag is off
(the code comment reads "Enrich for better filtering if not already
verbose"; with verbose set, enrichment happens after the sort, lines
85-87), then keep the records matching the filter. -/
def listFilterStage (pinfo : Int → ProcInfo) (ls : List Listener)
    (filter : String) (listVerbose : Bool) : List Listener :=
  if filter ≠ "" then
    let base := if !listVerbose then enrichListeners pinfo ls else ls
    base.filter (fun l => matchesFilter l filter)
  else ls

/-- Modelled from the spec (section 4.2 and claim C8): the filter
stage as the spec prescribes it, with enrichment always run before
filtering so that executable/command-line matches are never missed.
Used only to compare the code's stage against the claim. -/
def listFilterStagePerSpec (pinfo : Int → ProcInfo) (ls : List Listener)
    (filter : String) : List Listener :=
  if filter ≠ "" then
    (enrichListeners pinfo ls).filter (fun l => matchesFilter l filter)
  else ls

/-- The (port, pid) dedup key of the list pipeline (the Go code uses
the string key fmt.Sprintf with port and pid, which is injective on
the pair). -/
def keyOf (l : Listener) : Int × Int :=
  (l.port, l.pid)

/-- The --unique stage (part_002/part_003 listCmd): keep the first
record of each (port, pid) key, in order. -/
def dedupByPortPidAux : List Listener → List (Int × Int) → List Listener
  | [], _ => []
  | l :: rest, seen =>
    if seen.contains (keyOf l) then dedupByPortPidAux rest seen
    else l :: dedupByPortPidAux rest (keyOf l :: seen)

/-- Dedup by (port, pid) over a whole list. -/
def dedupByPortPid (ls : List Listener) : List Listener :=
  dedupByPortPidAux ls []

/-- The sort.Slice comparison of listCmd: port ascending, then pid
ascending. -/
def lessPortPid (a b : Listener) : Bool :=
  if a.port ≠ b.port then decide (a.port < b.port) else decide (a.pid < b.pid)

/-- A list is sorted for the pipeline when no later element compares
strictly below an earlier one. -/
def SortedPortPid (out : List Listener) : Prop :=
  out.Pairwise (fun a b => lessPortPid b a = false)

/-- The contract of the sort.Slice call in listCmd: the output is some
permutation of the input that is sorted by the comparison.  Go
documents sort.Slice as not guaranteed to be stable, so no more than
this is promised. -/
def listSortRel (inp out : List Listener) : Prop :=
  inp.Perm out ∧ SortedPortPid out

/-- Stability of a sort step: for every (port, pid) key, the records
with that key appear in the output in their input order (equivalently,
filtering input and output by the key gives the same list). -/
def PreservesEqKeyOrder (inp out : List Listener) : Prop :=
  ∀ k : Int × Int, out.filter (fun l => keyOf l = k) = inp.filter (fun l => keyOf l = k)

/-! ## Lemmas about the line parsers -/

/-- Any port parsePortFromAddress accepts lies in [1, 65535]. -/
theorem parsePortFromAddress_range (a : String) (p : Int)
    (h : parsePortFromAddress a = some p) : 1 ≤ p ∧ p ≤ 65535 := by
  unfold parsePortFromAddress at h
  split at h
  · exact absurd h (by simp)
  · split at h
    · exact absurd h (by simp)
    · split at h
      · exact absurd h (by simp)
      · split at h
        · rename_i hrange
          cases h
          exact hrange
        · exact absurd h (by simp)

/-- Any port the lsof address scan accepts lies in [1, 65535]. -/
theorem lsofAddrPortRev_range (fields : List String) (a : String) (p : Int)
    (h : lsofAddrPortRev fields = some (a, p)) : 1 ≤ p ∧ p ≤ 65535 := by
  induction fields with
  | nil => exact absurd h (by simp [lsofAddrPortRev])
  | cons tok rest ih =>
    rw [lsofAddrPortRev] at h
    by_cases ht : tok = "(LISTEN)"
    · rw [if_pos ht] at h
      exact ih h
    · rw [if_neg ht] at h
      cases hq : parsePortFromAddress tok with
      | none =>
        rw [hq] at h
        exact ih h
      | some q =>
        rw [hq] at h
        simp only [Option.some.injEq, Prod.mk.injEq] at h
        obtain ⟨h1, h2⟩ := h
        subst h1
        subst h2
        exact parsePortFromAddress_range tok q hq

/-- Any record parseLsofLine produces has its port in [1, 65535]. -/
theorem parseLsofLine_range (line : String) (l : Listener)
    (h : parseLsofLine line = some l) : 1 ≤ l.port ∧ l.port ≤ 65535 := by
  simp only [parseLsofLine] at h
  by_cases hlen : (goFields line).length < 4
  · rw [if_pos hlen] at h
    exact absurd h (by simp)
  · rw [if_neg hlen] at h
    cases hq : lsofAddrPortRev (goFields line).reverse with
    | none =>
      rw [hq] at h
      exact absurd h (by simp)
    | some ap =>
      obtain ⟨addr, p⟩ := ap
      rw [hq] at h
      dsimp only at h
      cases h
      exact lsofAddrPortRev_range _ addr p hq

/-- Any record parseSSLine produces has its port in [1, 65535]. -/
theorem parseSSLine_range (line : String) (l : Listener)
    (h : parseSSLine line = some l) : 1 ≤ l.port ∧ l.port ≤ 65535 := by
  simp only [parseSSLine] at h
  by_cases hlen : (goFields line).length < 4
  · rw [if_pos hlen] at h
    exact absurd h (by simp)
  · rw [if_neg hlen] at h
    cases hloc : extractSSLocal (goFields line) with
    | none =>
      rw [hloc] at h
      exact absurd h (by simp)
    | some loc =>
      rw [hloc] at h
      dsimp only at h
      cases hp : parsePortFromAddress loc with
      | none =>
        rw [hp] at h
        exact absurd h (by simp)
      | some p =>
        rw [hp] at h
        dsimp only at h
        cases h
        exact parsePortFromAddress_range loc p hp

/-- C4: both adapters' line parsers are total functions into Option
(no line content can abort a discovery pass); every record they
produce carries a port in [1, 65535]; and a local-address token whose
port position holds a non-numeric service name (such as *:http) yields
no record, as does the lsof header line. -/
theorem C4_parser_port_range :
    (∀ line l, parseLsofLine line = some l → 1 ≤ l.port ∧ l.port ≤ 65535) ∧
    (∀ line l, parseSSLine line = some l → 1 ≤ l.port ∧ l.port ≤ 65535) ∧
    parseLsofLine "httpd 123 root 4u IPv4 0x0 0t0 TCP *:http (LISTEN)" = none ∧
    parseSSLine "LISTEN 0 128 *:http *:*" = none ∧
    parseLsofLine "COMMAND PID USER FD TYPE DEVICE SIZE/OFF NODE NAME" = none := by
  refine ⟨parseLsofLine_range, parseSSLine_range, ?_, ?_, ?_⟩ <;> decide

/-- Witness for C4 at a concrete accepted line of each tool. -/
theorem C4_parser_port_range_witness :
    (1 ≤ (3000 : Int) ∧ (3000 : Int) ≤ 65535) ∧
    (1 ≤ (8080 : Int) ∧ (8080 : Int) ≤ 65535) :=
  ⟨C4_parser_port_range.1 "node 12345 alice 23u IPv4 0x0 0t0 TCP *:3000 (LISTEN)"
    { port := 3000, pid := 12345, user := "alice", command := "node",
      proto := "tcp", address := "*:3000" } (by decide),
   C4_parser_port_range.2.1 "LISTEN 0 4096 127.0.0.1:8080 0.0.0.0:*"
    { port := 8080, proto := "tcp", address := "127.0.0.1:8080" } (by decide)⟩

/-! ## Lemmas about the kill state machine -/

/-- Every resolved target listens on the requested port and has a
positive pid. -/
theorem resolveTargetsAux_mem (port : Int) (ls : List Listener) :
    ∀ seen t, t ∈ resolveTargetsAux port ls seen → t.port = port ∧ t.pid > 0 := by
  induction ls with
  | nil => intro seen t ht; exact absurd ht (by simp [resolveTargetsAux])
  | cons l rest ih =>
    intro seen t ht
    rw [resolveTargetsAux] at ht
    split at ht
    · rename_i hcond
      rcases List.mem_cons.mp ht with h | h
      · subst h
        exact ⟨hcond.1, hcond.2.1⟩
      · exact ih _ t h
    · exact ih _ t ht

/-- The pids of the resolved targets avoid seen and are pairwise
distinct. -/
theorem resolveTargetsAux_pids (port : Int) (ls : List Listener) :
    ∀ seen,
      ((resolveTargetsAux port ls seen).map (fun t => t.pid)).Nodup ∧
      ∀ p ∈ (resolveTargetsAux port ls seen).map (fun t => t.pid), ¬ seen.contains p := by
  induction ls with
  | nil => intro seen; simp [resolveTargetsAux]
  | cons l rest ih =>
    intro seen
    rw [resolveTargetsAux]
    split
    · rename_i hcond
      obtain ⟨hnd, hfresh⟩ := ih (l.pid :: seen)
      refine ⟨List.nodup_cons.mpr ⟨?_, hnd⟩, ?_⟩
      · intro hmem
        exact (hfresh l.pid hmem) (by simp)
      · intro p hp
        rw [List.map_cons] at hp
        rcases List.mem_cons.mp hp with h | h
        · subst h
          exact hcond.2.2
        · intro hs
          refine (hfresh p h) ?_
          have hps : p ∈ seen := List.mem_of_elem_eq_true hs
          simp [List.contains_cons]
          exact Or.inr hps
    · exact ih seen

/-- The pids of the resolved target snapshot are pairwise distinct. -/
theorem resolveTargets_pids_nodup (port : Int) (listeners : List Listener) :
    ((resolveTargets port listeners).map (fun t => t.pid)).Nodup :=
  (resolveTargetsAux_pids port listeners []).1

/-- When every listener on the port has pid zero, no target is
resolved. -/
theorem resolveTargetsAux_all_zero (port : Int) (ls : List Listener)
    (h : ∀ l ∈ ls, l.port = port → l.pid = 0) :
    ∀ seen, resolveTargetsAux port ls seen = [] := by
  induction ls with
  | nil => intro seen; rfl
  | cons l rest ih =>
    intro seen
    rw [resolveTargetsAux]
    have hrest : ∀ x ∈ rest, x.port = port → x.pid = 0 := by
      intro x hx
      exact h x (List.mem_cons_of_mem l hx)
    split
    · rename_i hcond
      have : l.pid = 0 := h l (List.mem_cons_self l rest) hcond.1
      omega
    · exact ih hrest seen

/-- The initial signal loop when no send hits a hard error: every
target is attempted in order with the chosen signal, and the signaled
count is the number of successful sends (ESRCH sends are attempted but
not counted). -/
theorem signalPhase_no_other (sig : Signal) (kres : Int → Signal → KillRes)
    (ts : List Listener) (h : ∀ t ∈ ts, kres t.pid sig ≠ KillRes.other) :
    signalPhase sig kres ts =
      (ts.map (fun t => KillEv.send t.pid sig (kres t.pid sig)),
       Except.ok (ts.countP (fun t => kres t.pid sig = KillRes.ok))) := by
  induction ts with
  | nil => simp [signalPhase]
  | cons t rest ih =>
    have hrest : ∀ x ∈ rest, kres x.pid sig ≠ KillRes.other := by
      intro x hx
      exact h x (List.mem_cons_of_mem t hx)
    have hihs := ih hrest
    rw [signalPhase]
    cases hr : kres t.pid sig with
    | other => exact absurd hr (h t (List.mem_cons_self t rest))
    | esrch =>
      simp only [hihs, List.map_cons, hr, List.countP_cons]
      simp [hr, Except.map]
    | ok =>
      simp only [hihs, List.map_cons, hr, List.countP_cons]
      simp [hr, Except.map]

/-- The escalation loop when every poll inside the timeout still sees
the port listening: the deadline elapses, SIGKILL is sent to each
target of the snapshot after all the polls, and the report carries the
original signal. -/
theorem escalationLoop_all_up (port : Int) (sig : Signal) (k : Nat)
    (targets : List Listener) (kres : Int → Signal → KillRes)
    (polls : List PollRes) (h : ∀ r ∈ polls, r = PollRes.up) :
    escalationLoop port sig k targets kres polls =
      (polls.map KillEv.poll ++
         targets.map (fun t => KillEv.send t.pid Signal.SIGKILL (kres t.pid Signal.SIGKILL)),
       Except.ok (mkSignaledReport port k sig)) := by
  induction polls with
  | nil => simp [escalationLoop]
  | cons r rest ih =>
    have hr : r = PollRes.up := h r (List.mem_cons_self r rest)
    subst hr
    have hrest : ∀ x ∈ rest, x = PollRes.up := by
      intro x hx
      exact h x (List.mem_cons_of_mem _ hx)
    rw [escalationLoop]
    simp [ih hrest]

/-- The escalation loop when the port stops listening at some poll
before the deadline: the loop returns at that poll with the signaled
report and never sends SIGKILL. -/
theorem escalationLoop_down_early (port : Int) (sig : Signal) (k : Nat)
    (targets : List Listener) (kres : Int → Signal → KillRes)
    (n : Nat) (rest : List PollRes) :
    escalationLoop port sig k targets kres
        (List.replicate n PollRes.up ++ PollRes.down :: rest) =
      (List.replicate n (KillEv.poll PollRes.up) ++ [KillEv.poll PollRes.down],
       Except.ok (mkSignaledReport port k sig)) := by
  induction n with
  | zero => simp [escalationLoop]
  | succ m ih =>
    rw [List.replicate_succ, List.cons_append, escalationLoop.eq_def]
    dsimp only
    rw [ih]
    simp [List.replicate_succ]

/-- Any non-error outcome of the escalation loop is the signaled
report built from the original signal. -/
theorem escalationLoop_ok_shape (port : Int) (sig : Signal) (k : Nat)
    (targets : List Listener) (kres : Int → Signal → KillRes)
    (polls : List PollRes) (r : KillReport)
    (h : (escalationLoop port sig k targets kres polls).2 = Except.ok r) :
    r = mkSignaledReport port k sig := by
  induction polls with
  | nil =>
    simp only [escalationLoop] at h
    cases h
    rfl
  | cons q rest ih =>
    cases q with
    | perr =>
      rw [escalationLoop] at h
      exact absurd h (by simp)
    | down =>
      rw [escalationLoop] at h
      dsimp only at h
      cases h
      rfl
    | up =>
      rw [escalationLoop] at h
      dsimp only at h
      exact ih h

/-- Whether a kill outcome is the ownership-denial error return. -/
def isDeniedError (e : Except KillFailure KillReport) : Bool :=
  match e with
  | Except.error (KillFailure.deniedOwnership _ _) => true
  | _ => false

/-- C1: with force off, a caller whose user is known, and some
resolved target whose recorded owning user is nonempty and differs
from the caller's, the kill command returns the ownership error (a
nonzero exit) and its trace is empty: no signal was sent to any
target, including the targets owned by the caller. -/
theorem C1_ownership_denial_atomic
    (port : Int) (sig : Signal) (dryRun timeoutPos : Bool) (u : String)
    (listeners : List Listener) (kres : Int → Signal → KillRes) (polls : List PollRes)
    (hne : resolveTargets port listeners ≠ [])
    (hdeny : ∃ t ∈ resolveTargets port listeners, t.user ≠ "" ∧ t.user ≠ u) :
    isDeniedError (killRun port sig false dryRun timeoutPos (some u) listeners kres polls).2 = true ∧
    (killRun port sig false dryRun timeoutPos (some u) listeners kres polls).1 = [] := by
  have hemp : (resolveTargets port listeners).isEmpty = false := by
    rcases hx : resolveTargets port listeners with _ | ⟨t, ts⟩
    · exact absurd hx hne
    · rfl
  obtain ⟨t, ht, hu⟩ := hdeny
  have hden : denies false (some u) t = true := by
    simp [denies]
    exact hu
  have hfind : ((resolveTargets port listeners).find? (denies false (some u))).isSome := by
    rw [List.find?_isSome]
    exact ⟨t, ht, hden⟩
  obtain ⟨w, hw⟩ := Option.isSome_iff_exists.mp hfind
  constructor
  · simp [killRun, hemp, hw, isDeniedError]
  · simp [killRun, hemp, hw]

/-- Witness for C1: one foreign-owned listener, caller alice. -/
theorem C1_ownership_denial_atomic_witness :
    isDeniedError (killRun 3000 Signal.SIGTERM false false false (some "alice")
      [{ port := 3000, pid := 42, user := "bob", command := "node" }]
      (fun _ _ => KillRes.ok) []).2 = true ∧
    (killRun 3000 Signal.SIGTERM false false false (some "alice")
      [{ port := 3000, pid := 42, user := "bob", command := "node" }]
      (fun _ _ => KillRes.ok) []).1 = [] :=
  C1_ownership_denial_atomic 3000 Signal.SIGTERM false false "alice"
    [{ port := 3000, pid := 42, user := "bob", command := "node" }]
    (fun _ _ => KillRes.ok) [] (by decide) (by decide)

/-- C5: with the dry-run flag set and the ownership check passing, the
kill command reports the resolved target list with status dry-run and
its trace is empty: no signal is sent to any process. -/
theorem C5_dry_run_sends_nothing
    (port : Int) (sig : Signal) (force timeoutPos : Bool) (caller : Option String)
    (listeners : List Listener) (kres : Int → Signal → KillRes) (polls : List PollRes)
    (hne : resolveTargets port listeners ≠ [])
    (hown : (resolveTargets port listeners).find? (denies force caller) = none) :
    killRun port sig force true timeoutPos caller listeners kres polls =
      ([], Except.ok { port := port, status := "dry-run",
                       targets := some (resolveTargets port listeners) }) := by
  have hemp : (resolveTargets port listeners).isEmpty = false := by
    rcases hx : resolveTargets port listeners with _ | ⟨t, ts⟩
    · exact absurd hx hne
    · rfl
  simp [killRun, hemp, hown]

/-- Witness for C5: one listener owned by the caller. -/
theorem C5_dry_run_sends_nothing_witness :
    killRun 3000 Signal.SIGTERM false true false (some "alice")
      [{ port := 3000, pid := 42, user := "alice", command := "node" }]
      (fun _ _ => KillRes.ok) [] =
      ([], Except.ok { port := 3000, status := "dry-run",
                       targets := some [{ port := 3000, pid := 42, user := "alice", command := "node" }] }) :=
  C5_dry_run_sends_nothing 3000 Signal.SIGTERM false false (some "alice")
    [{ port := 3000, pid := 42, user := "alice", command := "node" }]
    (fun _ _ => KillRes.ok) [] (by decide) (by decide)

/-- C10: target resolution keeps only listeners with positive pid, so
when every discovered listener on the port carries pid zero (as the ss
adapter produces when the tool lacks permission to report process
info, shown by the third conjunct on a process-less ss line), the kill
command reports status idle with zero signaled targets, exits
successfully, and sends no signal, although the port is occupied. -/
theorem C10_pid_zero_reports_idle :
    (∀ (port : Int) (listeners : List Listener),
      ∀ t ∈ resolveTargets port listeners, t.pid > 0) ∧
    (∀ (port : Int) (sig : Signal) (force dryRun timeoutPos : Bool)
       (caller : Option String) (listeners : List Listener)
       (kres : Int → Signal → KillRes) (polls : List PollRes),
      (∀ l ∈ listeners, l.port = port → l.pid = 0) →
      killRun port sig force dryRun timeoutPos caller listeners kres polls =
        ([], Except.ok { port := port, status := "idle", signaled := some 0 })) ∧
    parseSSLine "LISTEN 0 4096 127.0.0.1:8080 0.0.0.0:*" =
      some { port := 8080, proto := "tcp", address := "127.0.0.1:8080" } := by
  refine ⟨?_, ?_, by decide⟩
  · intro port listeners t ht
    exact (resolveTargetsAux_mem port listeners [] t ht).2
  · intro port sig force dryRun timeoutPos caller listeners kres polls hall
    have hres : resolveTargets port listeners = [] :=
      resolveTargetsAux_all_zero port listeners hall []
    simp [killRun, hres]

/-- Witness for C10: a port whose only listener has pid zero. -/
theorem C10_pid_zero_reports_idle_witness :
    killRun 8080 Signal.SIGTERM false false false (some "alice")
      [{ port := 8080, proto := "tcp", address := "127.0.0.1:8080" }]
      (fun _ _ => KillRes.ok) [] =
      ([], Except.ok { port := 8080, status := "idle", signaled := some 0 }) :=
  C10_pid_zero_reports_idle.2.1 8080 Signal.SIGTERM false false false (some "alice")
    [{ port := 8080, proto := "tcp", address := "127.0.0.1:8080" }]
    (fun _ _ => KillRes.ok) [] (by decide)

/-- A trace of sends with a signal other than SIGKILL contains no
SIGKILL send. -/
theorem countKillSends_not_kill (ts : List Listener) (sig : Signal)
    (kres : Int → Signal → KillRes) (p : Int) (h : sig ≠ Signal.SIGKILL) :
    countKillSends (ts.map (fun t => KillEv.send t.pid sig (kres t.pid sig))) p = 0 := by
  induction ts with
  | nil => rfl
  | cons t rest ih =>
    rw [List.map_cons]
    cases sig with
    | SIGKILL => exact absurd rfl h
    | SIGTERM => simpa [countKillSends, List.filter] using ih
    | SIGINT => simpa [countKillSends, List.filter] using ih

/-- Poll events contribute no SIGKILL send. -/
theorem countKillSends_polls (polls : List PollRes) (p : Int) :
    countKillSends (polls.map KillEv.poll) p = 0 := by
  induction polls with
  | nil => rfl
  | cons q rest ih => simpa [countKillSends, List.filter] using ih

/-- SIGKILL sends split over trace concatenation. -/
theorem countKillSends_append (a b : List KillEv) (p : Int) :
    countKillSends (a ++ b) p = countKillSends a p + countKillSends b p := by
  simp [countKillSends, List.filter_append]

/-- Counting SIGKILL sends in the escalation block counts pids. -/
theorem countKillSends_kills (ts : List Listener) (kres : Int → Signal → KillRes) (p : Int) :
    countKillSends
        (ts.map (fun t => KillEv.send t.pid Signal.SIGKILL (kres t.pid Signal.SIGKILL))) p =
      (ts.map (fun t => t.pid)).count p := by
  induction ts with
  | nil => rfl
  | cons t rest ih =>
    by_cases hp : t.pid = p
    · simp [countKillSends, List.filter, List.count_cons, hp] at *
      omega
    · simp [countKillSends, List.filter, List.count_cons, hp] at *
      omega

/-- Each target pid receives exactly one SIGKILL send in the trace. -/
def killedExactlyOnce (targets : List Listener) (trace : List KillEv) : Bool :=
  targets.all (fun t => countKillSends trace t.pid == 1)

/-- Whether the trace contains a send event at all. -/
def hasSend (trace : List KillEv) : Bool :=
  trace.any (fun ev =>
    match ev with
    | KillEv.send _ _ _ => true
    | _ => false)

/-- No SIGKILL send hides in a replicate of poll events. -/
theorem hasKillSend_replicate_poll (n : Nat) (r : PollRes) :
    hasKillSend (List.replicate n (KillEv.poll r)) = false := by
  induction n with
  | zero => rfl
  | succ m ih => simpa [hasKillSend, List.replicate_succ, List.any_cons] using ih

/-- No SIGKILL send hides in a block of sends with another signal. -/
theorem hasKillSend_not_kill (ts : List Listener) (sig : Signal)
    (kres : Int → Signal → KillRes) (h : sig ≠ Signal.SIGKILL) :
    hasKillSend (ts.map (fun t => KillEv.send t.pid sig (kres t.pid sig))) = false := by
  induction ts with
  | nil => rfl
  | cons t rest ih =>
    rw [List.map_cons]
    cases sig with
    | SIGKILL => exact absurd rfl h
    | SIGTERM => simpa [hasKillSend, List.any_cons] using ih
    | SIGINT => simpa [hasKillSend, List.any_cons] using ih

/-- hasKillSend splits over concatenation. -/
theorem hasKillSend_append (a b : List KillEv) :
    hasKillSend (a ++ b) = (hasKillSend a || hasKillSend b) := by
  simp [hasKillSend, List.any_append]

/-- C2: take a kill run with escalation enabled (positive timeout, a
chosen signal below SIGKILL), resolved targets present, ownership
passing, and no hard error in the initial sends.  First part: if every
poll inside the timeout still sees the port listening, the trace is
exactly the initial sends, then all the polls, then one SIGKILL send
per pid of the original resolved snapshot — so SIGKILL reaches each
target pid exactly once and only after the deadline's polls — and the
outcome is the signaled report whatever the SIGKILL send results were
(escalation send failures are ignored).  Second part: if the port
stops listening at some poll before the deadline, the run ends at that
poll and no SIGKILL send ever appears in the trace. -/
theorem C2_escalation_exactly_once_after_deadline
    (port : Int) (sig : Signal) (force : Bool) (caller : Option String)
    (listeners : List Listener) (kres : Int → Signal → KillRes) (polls : List PollRes)
    (hsig : sig ≠ Signal.SIGKILL)
    (hne : resolveTargets port listeners ≠ [])
    (hown : (resolveTargets port listeners).find? (denies force caller) = none)
    (hsend : ∀ t ∈ resolveTargets port listeners, kres t.pid sig ≠ KillRes.other) :
    ((∀ r ∈ polls, r = PollRes.up) →
      killRun port sig force false true caller listeners kres polls =
        ((resolveTargets port listeners).map (fun t => KillEv.send t.pid sig (kres t.pid sig)) ++
           polls.map KillEv.poll ++
           (resolveTargets port listeners).map
             (fun t => KillEv.send t.pid Signal.SIGKILL (kres t.pid Signal.SIGKILL)),
         Except.ok (mkSignaledReport port
           ((resolveTargets port listeners).countP (fun t => kres t.pid sig = KillRes.ok)) sig)) ∧
      killedExactlyOnce (resolveTargets port listeners)
        (killRun port sig force false true caller listeners kres polls).1 = true) ∧
    (∀ (n : Nat) (rest : List PollRes),
      polls = List.replicate n PollRes.up ++ PollRes.down :: rest →
      killRun port sig force false true caller listeners kres polls =
        ((resolveTargets port listeners).map (fun t => KillEv.send t.pid sig (kres t.pid sig)) ++
           (List.replicate n (KillEv.poll PollRes.up) ++ [KillEv.poll PollRes.down]),
         Except.ok (mkSignaledReport port
           ((resolveTargets port listeners).countP (fun t => kres t.pid sig = KillRes.ok)) sig)) ∧
      hasKillSend (killRun port sig force false true caller listeners kres polls).1 = false) := by
  have hemp : (resolveTargets port listeners).isEmpty = false := by
    rcases hx : resolveTargets port listeners with _ | ⟨t, ts⟩
    · exact absurd hx hne
    · rfl
  have hgate : (true && !(sig = Signal.SIGKILL)) = true := by
    simp [hsig]
  have hsp := signalPhase_no_other sig kres (resolveTargets port listeners) hsend
  constructor
  · intro hall
    have hesc := escalationLoop_all_up port sig
      ((resolveTargets port listeners).countP (fun t => kres t.pid sig = KillRes.ok))
      (resolveTargets port listeners) kres polls hall
    have hrun : killRun port sig force false true caller listeners kres polls =
        ((resolveTargets port listeners).map (fun t => KillEv.send t.pid sig (kres t.pid sig)) ++
           polls.map KillEv.poll ++
           (resolveTargets port listeners).map
             (fun t => KillEv.send t.pid Signal.SIGKILL (kres t.pid Signal.SIGKILL)),
         Except.ok (mkSignaledReport port
           ((resolveTargets port listeners).countP (fun t => kres t.pid sig = KillRes.ok)) sig)) := by
      simp [killRun, hemp, hown, hsp, hsig, hesc, List.append_assoc]
    refine ⟨hrun, ?_⟩
    rw [hrun]
    rw [killedExactlyOnce, List.all_eq_true]
    intro t ht
    rw [countKillSends_append, countKillSends_append,
      countKillSends_not_kill _ _ _ _ hsig, countKillSends_polls, countKillSends_kills]
    have hmem : t.pid ∈ (resolveTargets port listeners).map (fun t => t.pid) :=
      List.mem_map_of_mem _ ht
    have hone : ((resolveTargets port listeners).map (fun t => t.pid)).count t.pid = 1 :=
      List.count_eq_one_of_mem (resolveTargets_pids_nodup port listeners) hmem
    simp [hone]
  · intro n rest hpolls
    subst hpolls
    have hesc := escalationLoop_down_early port sig
      ((resolveTargets port listeners).countP (fun t => kres t.pid sig = KillRes.ok))
      (resolveTargets port listeners) kres n rest
    have hrun : killRun port sig force false true caller listeners kres
        (List.replicate n PollRes.up ++ PollRes.down :: rest) =
        ((resolveTargets port listeners).map (fun t => KillEv.send t.pid sig (kres t.pid sig)) ++
           (List.replicate n (KillEv.poll PollRes.up) ++ [KillEv.poll PollRes.down]),
         Except.ok (mkSignaledReport port
           ((resolveTargets port listeners).countP (fun t => kres t.pid sig = KillRes.ok)) sig)) := by
      simp [killRun, hemp, hown, hsp, hsig, hesc]
    refine ⟨hrun, ?_⟩
    rw [hrun]
    rw [hasKillSend_append, hasKillSend_append,
      hasKillSend_not_kill _ _ _ hsig, hasKillSend_replicate_poll]
    rfl

/-- Witness for C2: one caller-owned listener that survives TERM
through two polls, then receives exactly one SIGKILL. -/
theorem C2_escalation_exactly_once_after_deadline_witness :
    (killRun 3000 Signal.SIGTERM false false true (some "alice")
        [{ port := 3000, pid := 42, user := "alice", command := "node" }]
        (fun _ _ => KillRes.ok) [PollRes.up, PollRes.up] =
      ([KillEv.send 42 Signal.SIGTERM KillRes.ok,
        KillEv.poll PollRes.up, KillEv.poll PollRes.up,
        KillEv.send 42 Signal.SIGKILL KillRes.ok],
       Except.ok (mkSignaledReport 3000 1 Signal.SIGTERM))) ∧
    killedExactlyOnce [{ port := 3000, pid := 42, user := "alice", command := "node" }]
      (killRun 3000 Signal.SIGTERM false false true (some "alice")
        [{ port := 3000, pid := 42, user := "alice", command := "node" }]
        (fun _ _ => KillRes.ok) [PollRes.up, PollRes.up]).1 = true :=
  (C2_escalation_exactly_once_after_deadline 3000 Signal.SIGTERM false (some "alice")
    [{ port := 3000, pid := 42, user := "alice", command := "node" }]
    (fun _ _ => KillRes.ok) [PollRes.up, PollRes.up]
    (by decide) (by decide) (by decide) (by decide)).1 (by decide)

/-- C6 counterexample: an escalated run whose last signal actually
sent is SIGKILL (final trace event) still reports the originally
chosen signal TERM in its machine-readable payload, so the reported
final signal is not the signal actually sent last. -/
theorem C6_counterexample_escalation_reports_initial_signal :
    killRun 3000 Signal.SIGTERM false false true (some "alice")
      [{ port := 3000, pid := 42, user := "alice", command := "node" }]
      (fun _ _ => KillRes.ok) [PollRes.up] =
      ([KillEv.send 42 Signal.SIGTERM KillRes.ok, KillEv.poll PollRes.up,
        KillEv.send 42 Signal.SIGKILL KillRes.ok],
       Except.ok { port := 3000, status := "signaled", signaled := some 1,
                   signal := some Signal.SIGTERM }) ∧
    Signal.SIGTERM ≠ Signal.SIGKILL := by
  constructor
  · rfl
  · decide

/-- C6 as amended: every successful kill outcome carries a status
drawn from idle, dry-run, signaled; the signal field, when present at
all, always holds the originally chosen signal (even after an
escalation actually sent SIGKILL); an idle report carries count zero
and no signal field; a dry-run report carries the resolved target
list and neither a count nor a signal field; a signaled report
carries that signal and a signaled count. -/
theorem C6_amended_report_shape
    (port : Int) (sig : Signal) (force dryRun timeoutPos : Bool)
    (caller : Option String) (listeners : List Listener)
    (kres : Int → Signal → KillRes) (polls : List PollRes) (r : KillReport)
    (h : (killRun port sig force dryRun timeoutPos caller listeners kres polls).2 =
      Except.ok r) :
    (r.status = "idle" ∨ r.status = "dry-run" ∨ r.status = "signaled") ∧
    (r.signal = none ∨ r.signal = some sig) ∧
    (r.status = "idle" → r.signaled = some 0 ∧ r.signal = none) ∧
    (r.status = "dry-run" →
      r.targets = some (resolveTargets port listeners) ∧
      r.signaled = none ∧ r.signal = none) ∧
    (r.status = "signaled" → r.signal = some sig ∧ r.signaled.isSome) := by
  simp only [killRun] at h
  by_cases hemp : (resolveTargets port listeners).isEmpty = true
  · rw [if_pos hemp] at h
    dsimp only at h
    cases h
    refine ⟨Or.inl rfl, Or.inl rfl, fun _ => ⟨rfl, rfl⟩,
      fun hc => by simp at hc, fun hc => by simp at hc⟩
  · rw [if_neg hemp] at h
    cases hf : (resolveTargets port listeners).find? (denies force caller) with
    | some t =>
      rw [hf] at h
      exact absurd h (by simp)
    | none =>
      rw [hf] at h
      dsimp only at h
      by_cases hdry : dryRun = true
      · rw [if_pos hdry] at h
        cases h
        refine ⟨Or.inr (Or.inl rfl), Or.inl rfl, fun hc => by simp at hc,
          fun _ => ⟨rfl, rfl, rfl⟩, fun hc => by simp at hc⟩
      · rw [if_neg hdry] at h
        cases hsp : (signalPhase sig kres (resolveTargets port listeners)).2 with
        | error e =>
          rw [hsp] at h
          exact absurd h (by simp)
        | ok k =>
          rw [hsp] at h
          dsimp only at h
          by_cases hgate : (timeoutPos && !(sig = Signal.SIGKILL)) = true
          · rw [if_pos hgate] at h
            dsimp only at h
            have hr := escalationLoop_ok_shape port sig k
              (resolveTargets port listeners) kres polls r h
            subst hr
            refine ⟨Or.inr (Or.inr rfl), Or.inr rfl,
              fun hc => by simp [mkSignaledReport] at hc,
              fun hc => by simp [mkSignaledReport] at hc,
              fun _ => ⟨rfl, rfl⟩⟩
          · rw [if_neg hgate] at h
            dsimp only at h
            cases h
            refine ⟨Or.inr (Or.inr rfl), Or.inr rfl,
              fun hc => by simp [mkSignaledReport] at hc,
              fun hc => by simp [mkSignaledReport] at hc,
              fun _ => ⟨rfl, rfl⟩⟩

/-- Witness for C6 at a completed signaled run. -/
theorem C6_amended_report_shape_witness :
    (("signaled" : String) = "idle" ∨ ("signaled" : String) = "dry-run" ∨
      ("signaled" : String) = "signaled") ∧
    ((some Signal.SIGTERM : Option Signal) = none ∨
      (some Signal.SIGTERM : Option Signal) = some Signal.SIGTERM) ∧
    (("signaled" : String) = "idle" →
      (some 1 : Option Nat) = some 0 ∧ (some Signal.SIGTERM : Option Signal) = none) ∧
    (("signaled" : String) = "dry-run" →
      (none : Option (List Listener)) =
        some (resolveTargets 3000
          [{ port := 3000, pid := 42, user := "alice", command := "node" }]) ∧
      (some 1 : Option Nat) = none ∧ (some Signal.SIGTERM : Option Signal) = none) ∧
    (("signaled" : String) = "signaled" →
      (some Signal.SIGTERM : Option Signal) = some Signal.SIGTERM ∧
      (some 1 : Option Nat).isSome) :=
  C6_amended_report_shape 3000 Signal.SIGTERM false false false (some "alice")
    [{ port := 3000, pid := 42, user := "alice", command := "node" }]
    (fun _ _ => KillRes.ok) [] (mkSignaledReport 3000 1 Signal.SIGTERM) (by rfl)

/-- C7 counterexample: a single resolved target whose send fails with
ESRCH (it exited between discovery and signaling) does not fail the
run, but the reported signaled count is 0, not the 1 that counting it
like a successfully signaled target would give. -/
theorem C7_counterexample_esrch_not_counted :
    killRun 3000 Signal.SIGTERM false false false (some "alice")
      [{ port := 3000, pid := 42, user := "alice", command := "node" }]
      (fun _ _ => KillRes.esrch) [] =
      ([KillEv.send 42 Signal.SIGTERM KillRes.esrch],
       Except.ok { port := 3000, status := "signaled", signaled := some 0,
                   signal := some Signal.SIGTERM }) ∧
    (some 0 : Option Nat) ≠ some 1 := by
  constructor
  · rfl
  · decide

/-- C7 as amended: in the signal phase a target whose send returns
ESRCH is skipped — the run still attempts every other target and
completes successfully — but it is not included in the reported
signaled count, which counts exactly the successful sends. -/
theorem C7_amended_esrch_skipped_not_counted
    (port : Int) (sig : Signal) (force : Bool) (caller : Option String)
    (listeners : List Listener) (kres : Int → Signal → KillRes)
    (hne : resolveTargets port listeners ≠ [])
    (hown : (resolveTargets port listeners).find? (denies force caller) = none)
    (hsend : ∀ t ∈ resolveTargets port listeners, kres t.pid sig ≠ KillRes.other) :
    killRun port sig force false false caller listeners kres [] =
      ((resolveTargets port listeners).map (fun t => KillEv.send t.pid sig (kres t.pid sig)),
       Except.ok (mkSignaledReport port
         ((resolveTargets port listeners).countP (fun t => kres t.pid sig = KillRes.ok)) sig)) := by
  have hemp : (resolveTargets port listeners).isEmpty = false := by
    rcases hx : resolveTargets port listeners with _ | ⟨t, ts⟩
    · exact absurd hx hne
    · rfl
  have hsp := signalPhase_no_other sig kres (resolveTargets port listeners) hsend
  simp [killRun, hemp, hown, hsp]

/-- Witness for C7: pid 42 exits first (ESRCH), pid 43 is signaled;
the run succeeds and reports exactly one signaled target. -/
theorem C7_amended_esrch_skipped_not_counted_witness :
    killRun 3000 Signal.SIGTERM false false false (some "alice")
      [{ port := 3000, pid := 42, user := "alice", command := "node" },
       { port := 3000, pid := 43, user := "alice", command := "node" }]
      (fun p _ => if p = 42 then KillRes.esrch else KillRes.ok) [] =
      ([KillEv.send 42 Signal.SIGTERM KillRes.esrch,
        KillEv.send 43 Signal.SIGTERM KillRes.ok],
       Except.ok (mkSignaledReport 3000 1 Signal.SIGTERM)) :=
  C7_amended_esrch_skipped_not_counted 3000 Signal.SIGTERM false (some "alice")
    [{ port := 3000, pid := 42, user := "alice", command := "node" },
     { port := 3000, pid := 43, user := "alice", command := "node" }]
    (fun p _ => if p = 42 then KillRes.esrch else KillRes.ok)
    (by decide) (by decide) (by decide)

/-! ## Lemmas about the port allocator -/

/-- One candidate attempt succeeds exactly when lock and probe both
succeed. -/
theorem tryPort_snd (lck probe : Int → Bool) (p : Int) :
    (tryPort lck probe p).2 = (lck p && probe p) := by
  rw [tryPort]
  cases hl : lck p with
  | false => rfl
  | true =>
    cases hp : probe p with
    | false => simp [hl, hp]
    | true => simp [hl, hp]

/-- The candidate loop returns the first candidate whose lock and
probe both succeed. -/
theorem pickLoop_find (lck probe : Int → Bool) (cands : List Int) :
    (pickLoop lck probe cands).2 = cands.find? (fun p => lck p && probe p) := by
  induction cands with
  | nil => rfl
  | cons p rest ih =>
    rw [pickLoop, List.find?]
    cases ha : (lck p && probe p) with
    | true => simp [tryPort_snd, ha]
    | false => simp [tryPort_snd, ha, ih]

/-- After the candidate loop, exactly the returned port's lock is
still held: each failed candidate's lock was released (or never
acquired), and the successful candidate keeps its lock. -/
theorem pickLoop_held (lck probe : Int → Bool) (cands : List Int) :
    heldAfter (pickLoop lck probe cands).1 =
      (match (pickLoop lck probe cands).2 with
       | some p => [p]
       | none => []) := by
  induction cands with
  | nil => rfl
  | cons p rest ih =>
    rw [pickLoop]
    cases hl : lck p with
    | false =>
      have h1 : tryPort lck probe p = ([AllocEv.lockFail p], false) := by
        rw [tryPort, hl]
        rfl
      simpa [h1, heldAfter] using ih
    | true =>
      cases hp : probe p with
      | true =>
        have h1 : tryPort lck probe p = ([AllocEv.lockAcq p, AllocEv.probeOk p], true) := by
          rw [tryPort, hl]
          simp [hp]
        simp [h1, heldAfter]
      | false =>
        have h1 : tryPort lck probe p =
            ([AllocEv.lockAcq p, AllocEv.probeFail p, AllocEv.lockRel p], false) := by
          rw [tryPort, hl]
          simp [hp]
        simpa [h1, heldAfter, List.erase_cons] using ih

/-- C3 as amended: the locking variant tries the valid preferred ports
in order and then the range ascending, gating each candidate on lock
acquisition followed by a bind probe; it returns the first candidate
where both succeed, holding exactly that candidate's lock at the end
(every lock acquired for a failed candidate having been released), and
returns the no-free-port error exactly when every candidate fails.
The plain variant walks the same candidate order but consults only the
bind probe: it performs no locking, which is what the counterexample
exhibits against the claim's description of a lock-then-probe step in
both variants. -/
theorem C3_amended_allocator
    (lck probe : Int → Bool) (prefer : List Int) (r : PortRange) :
    ((PickAndLockTCPPort lck probe prefer r).2 =
      (match (allCands prefer r).find? (fun p => lck p && probe p) with
       | some p => Except.ok p
       | none => Except.error (AllocError.noFreePort r.start r.stop))) ∧
    (heldAfter (PickAndLockTCPPort lck probe prefer r).1 =
      (match (allCands prefer r).find? (fun p => lck p && probe p) with
       | some p => [p]
       | none => [])) ∧
    (PickTCPPort probe prefer r =
      (match (allCands prefer r).find? probe with
       | some p => Except.ok p
       | none => Except.error (AllocError.noFreePort r.start r.stop))) := by
  have hfind : (allCands prefer r).find? (fun p => lck p && probe p) =
      ((preferValid prefer).find? (fun p => lck p && probe p)).or
        ((rangeCandidates r).find? (fun p => lck p && probe p)) := by
    rw [allCands, List.find?_append]
  refine ⟨?_, ?_, ?_⟩
  · rw [PickAndLockTCPPort, hfind]
    cases hpref : (pickLoop lck probe (preferValid prefer)).2 with
    | some p =>
      have hp2 := hpref
      rw [pickLoop_find] at hp2
      simp [hpref, hp2]
    | none =>
      have hp2 := hpref
      rw [pickLoop_find] at hp2
      cases hrng : (pickLoop lck probe (rangeCandidates r)).2 with
      | some p =>
        have hr2 := hrng
        rw [pickLoop_find] at hr2
        simp [hpref, hrng, hp2, hr2]
      | none =>
        have hr2 := hrng
        rw [pickLoop_find] at hr2
        simp [hpref, hrng, hp2, hr2]
  · rw [PickAndLockTCPPort, hfind]
    cases hpref : (pickLoop lck probe (preferValid prefer)).2 with
    | some p =>
      have hp2 := hpref
      rw [pickLoop_find] at hp2
      have hh := pickLoop_held lck probe (preferValid prefer)
      rw [hpref] at hh
      simp [hpref, hp2, hh]
    | none =>
      have hp2 := hpref
      rw [pickLoop_find] at hp2
      have hh := pickLoop_held lck probe (preferValid prefer)
      rw [hpref] at hh
      have happ : heldAfter ((pickLoop lck probe (preferValid prefer)).1 ++
          (pickLoop lck probe (rangeCandidates r)).1) =
          heldAfter (pickLoop lck probe (rangeCandidates r)).1 := by
        rw [heldAfter, List.foldl_append]
        rw [heldAfter] at hh
        rw [hh]
        rfl
      have hh2 := pickLoop_held lck probe (rangeCandidates r)
      cases hrng : (pickLoop lck probe (rangeCandidates r)).2 with
      | some p =>
        have hr2 := hrng
        rw [pickLoop_find] at hr2
        rw [hrng] at hh2
        simp [hpref, hrng, hp2, hr2, happ, hh2]
      | none =>
        have hr2 := hrng
        rw [pickLoop_find] at hr2
        rw [hrng] at hh2
        simp [hpref, hrng, hp2, hr2, happ, hh2]
  · rw [PickTCPPort, allCands, List.find?_append]
    cases hpref : (preferValid prefer).find? probe with
    | some p => simp
    | none =>
      cases hrng : (rangeCandidates r).find? probe with
      | some p => simp
      | none => simp

/-- C3 counterexample: with the per-port lock unavailable for every
candidate (another cooperating invocation holds it) and the bind probe
succeeding, the lock-respecting allocator the claim describes must
reject every candidate, yet the plain variant still returns port 3000:
it never consults the lock. -/
theorem C3_counterexample_plain_variant_ignores_locks :
    PickTCPPort (fun _ => true) [3000] { start := 3000, stop := 3000 } =
      Except.ok 3000 ∧
    allocatorPerClaim (fun _ => false) (fun _ => true) [3000]
        { start := 3000, stop := 3000 } =
      Except.error (AllocError.noFreePort 3000 3000) ∧
    (Except.ok 3000 : Except AllocError Int) ≠
      Except.error (AllocError.noFreePort 3000 3000) := by
  refine ⟨by rfl, by rfl, ?_⟩
  intro h
  exact absurd h (by simp)

/-- C8: the verbose path filters before enriching.  A listener with
command "app" whose process command line (available from ps for pid
42) is "node server.js" is dropped by the filter "node" when the
verbose flag is set, because enrichment has not yet run at filter
time; without verbose, and under the spec's enrich-before-filter
stage, the same record is kept. -/
theorem C8_verbose_filters_before_enrichment :
    listFilterStage (fun p => if p = 42 then { commandLine := "node server.js" } else {})
      [{ port := 3000, pid := 42, command := "app" }] "node" true = [] ∧
    listFilterStage (fun p => if p = 42 then { commandLine := "node server.js" } else {})
      [{ port := 3000, pid := 42, command := "app" }] "node" false =
      [{ port := 3000, pid := 42, command := "app", commandLine := "node server.js" }] ∧
    listFilterStagePerSpec (fun p => if p = 42 then { commandLine := "node server.js" } else {})
      [{ port := 3000, pid := 42, command := "app" }] "node" =
      [{ port := 3000, pid := 42, command := "app", commandLine := "node server.js" }] ∧
    ([{ port := 3000, pid := 42, command := "app", commandLine := "node server.js" }] :
      List Listener) ≠ [] := by
  refine ⟨by rfl, by rfl, by rfl, by simp⟩

/-! ## Lemmas about the list pipeline's dedup and sort -/

/-- The dedup stage output is a sublist of its input. -/
theorem dedupByPortPidAux_sublist :
    ∀ (ls : List Listener) (seen : List (Int × Int)),
      (dedupByPortPidAux ls seen).Sublist ls := by
  intro ls
  induction ls with
  | nil => intro seen; exact List.Sublist.refl []
  | cons l rest ih =>
    intro seen
    rw [dedupByPortPidAux]
    split
    · exact List.Sublist.cons l (ih seen)
    · exact List.Sublist.cons₂ l (ih (keyOf l :: seen))

/-- The dedup stage output has pairwise-distinct (port, pid) keys,
none of them in seen. -/
theorem dedupByPortPidAux_keys :
    ∀ (ls : List Listener) (seen : List (Int × Int)),
      ((dedupByPortPidAux ls seen).map keyOf).Nodup ∧
      ∀ k ∈ (dedupByPortPidAux ls seen).map keyOf, ¬ seen.contains k = true := by
  intro ls
  induction ls with
  | nil => intro seen; simp [dedupByPortPidAux]
  | cons l rest ih =>
    intro seen
    rw [dedupByPortPidAux]
    split
    · exact ih seen
    · rename_i hns
      obtain ⟨hnd, hfresh⟩ := ih (keyOf l :: seen)
      refine ⟨List.nodup_cons.mpr ⟨?_, hnd⟩, ?_⟩
      · intro hmem
        exact (hfresh (keyOf l) hmem) (by simp)
      · intro k hk
        rw [List.map_cons] at hk
        rcases List.mem_cons.mp hk with h | h
        · subst h
          exact hns
        · intro hs
          refine (hfresh k h) ?_
          have hks : k ∈ seen := List.mem_of_elem_eq_true hs
          simp [List.contains_cons]
          exact Or.inr hks

/-- Each record the dedup stage keeps is the first input record with
its (port, pid) key. -/
theorem dedupByPortPidAux_first :
    ∀ (ls : List Listener) (seen : List (Int × Int)) (x : Listener),
      x ∈ dedupByPortPidAux ls seen →
      ¬ seen.contains (keyOf x) = true ∧
      ls.find? (fun y => decide (keyOf y = keyOf x)) = some x := by
  intro ls
  induction ls with
  | nil => intro seen x hx; exact absurd hx (by simp [dedupByPortPidAux])
  | cons l rest ih =>
    intro seen x hx
    rw [dedupByPortPidAux] at hx
    split at hx
    · rename_i hc
      obtain ⟨hns, hfind⟩ := ih seen x hx
      have hkey : ¬ keyOf l = keyOf x := by
        intro he
        rw [← he] at hns
        exact hns hc
      refine ⟨hns, ?_⟩
      rw [List.find?_cons]
      simp [hkey, hfind]
    · rename_i hc
      rcases List.mem_cons.mp hx with h | h
      · subst h
        refine ⟨hc, ?_⟩
        rw [List.find?_cons]
        simp
      · obtain ⟨hns, hfind⟩ := ih (keyOf l :: seen) x h
        have hkey : ¬ keyOf l = keyOf x := by
          intro he
          refine hns ?_
          simp [List.contains_cons, he]
        constructor
        · intro hs
          refine hns ?_
          have hks : keyOf x ∈ seen := List.mem_of_elem_eq_true hs
          simp [List.contains_cons]
          exact Or.inr hks
        · rw [List.find?_cons]
          simp [hkey, hfind]

/-- Every input key is represented in the dedup stage output (or was
already in seen). -/
theorem dedupByPortPidAux_covers :
    ∀ (ls : List Listener) (seen : List (Int × Int)) (x : Listener),
      x ∈ ls →
      seen.contains (keyOf x) = true ∨
      ∃ y ∈ dedupByPortPidAux ls seen, keyOf y = keyOf x := by
  intro ls
  induction ls with
  | nil => intro seen x hx; exact absurd hx (by simp)
  | cons l rest ih =>
    intro seen x hx
    rw [dedupByPortPidAux]
    rcases List.mem_cons.mp hx with h | h
    · subst h
      by_cases hc : seen.contains (keyOf x) = true
      · exact Or.inl hc
      · rw [if_neg hc]
        exact Or.inr ⟨x, List.mem_cons_self x _, rfl⟩
    · by_cases hc : seen.contains (keyOf l) = true
      · rw [if_pos hc]
        exact ih seen x h
      · rw [if_neg hc]
        rcases ih (keyOf l :: seen) x h with hin | ⟨y, hy, hky⟩
        · have : keyOf x = keyOf l ∨ keyOf x ∈ seen := by
            have := List.mem_of_elem_eq_true hin
            simpa [List.contains_cons] using hin
          rcases this with he | hs
          · exact Or.inr ⟨l, List.mem_cons_self l _, he.symm⟩
          · exact Or.inl (List.elem_eq_true_of_mem hs)
        · exact Or.inr ⟨y, List.mem_cons_of_mem l hy, hky⟩

/-- Two records neither of which compares strictly below the other
share their (port, pid) key. -/
theorem lessPortPid_antisymm_key (a b : Listener)
    (h1 : lessPortPid a b = false) (h2 : lessPortPid b a = false) :
    keyOf a = keyOf b := by
  rw [lessPortPid] at h1 h2
  by_cases hp : a.port = b.port
  · rw [if_neg (by simp [hp])] at h1
    rw [if_neg (by simp [hp])] at h2
    have e1 : ¬ (a.pid < b.pid) := by simpa using h1
    have e2 : ¬ (b.pid < a.pid) := by simpa using h2
    have hpid : a.pid = b.pid := by omega
    rw [keyOf, keyOf, hp, hpid]
  · rw [if_pos hp] at h1
    rw [if_pos (Ne.symm hp)] at h2
    have e1 : ¬ (a.port < b.port) := by simpa using h1
    have e2 : ¬ (b.port < a.port) := by simpa using h2
    exact absurd (by omega : a.port = b.port) hp

/-- A sorted permutation of a list with pairwise-distinct keys is
unique. -/
theorem sorted_perm_eq_of_nodup_keys :
    ∀ (l₁ l₂ : List Listener), l₁.Perm l₂ → SortedPortPid l₁ → SortedPortPid l₂ →
      (l₁.map keyOf).Nodup → l₁ = l₂ := by
  intro l₁
  induction l₁ with
  | nil =>
    intro l₂ hp _ _ _
    exact hp.nil_eq
  | cons a t ih =>
    intro l₂ hp hs1 hs2 hnd
    cases l₂ with
    | nil => exact absurd hp.symm.nil_eq (by simp)
    | cons b t₂ =>
      rw [SortedPortPid] at hs1 hs2
      have hab : a = b := by
        have ha2 : a ∈ b :: t₂ := hp.subset (List.mem_cons_self a t)
        rcases List.mem_cons.mp ha2 with h | hat2
        · exact h
        · have hb1 : b ∈ a :: t := hp.symm.subset (List.mem_cons_self b t₂)
          rcases List.mem_cons.mp hb1 with h | hbt
          · exact h.symm
          · have r1 : lessPortPid a b = false := (List.pairwise_cons.mp hs2).1 a hat2
            have r2 : lessPortPid b a = false := (List.pairwise_cons.mp hs1).1 b hbt
            have hk : keyOf b = keyOf a := lessPortPid_antisymm_key b a r2 r1
            have hmem : keyOf a ∈ t.map keyOf := hk ▸ List.mem_map_of_mem keyOf hbt
            rw [List.map_cons] at hnd
            exact absurd hmem (List.nodup_cons.mp hnd).1
      subst hab
      have ht : t.Perm t₂ := hp.cons_inv
      have hrec : t = t₂ := by
        refine ih t₂ ht (List.pairwise_cons.mp hs1).2 (List.pairwise_cons.mp hs2).2 ?_
        rw [List.map_cons] at hnd
        exact (List.nodup_cons.mp hnd).2
      rw [hrec]

/-- C9 as amended: the unique stage deduplicates by the (port, pid)
key keeping the first record of each key (conjuncts 1-4: distinct
output keys, output a sublist of the input, each kept record the first
input record of its key, every input key represented); the sort stage
is Go's sort.Slice, whose contract yields some permutation sorted by
port then pid but is not guaranteed stable, so the output is uniquely
determined — hence deterministic — whenever all (port, pid) keys are
distinct, in particular on the dedup stage's output (conjuncts 5-6). -/
theorem C9_amended_dedup_and_sort :
    (∀ ls : List Listener, ((dedupByPortPid ls).map keyOf).Nodup) ∧
    (∀ ls : List Listener, (dedupByPortPid ls).Sublist ls) ∧
    (∀ (ls : List Listener) (x : Listener), x ∈ dedupByPortPid ls →
      ls.find? (fun y => decide (keyOf y = keyOf x)) = some x) ∧
    (∀ (ls : List Listener) (x : Listener), x ∈ ls →
      ∃ y ∈ dedupByPortPid ls, keyOf y = keyOf x) ∧
    (∀ inp out₁ out₂ : List Listener, listSortRel inp out₁ → listSortRel inp out₂ →
      (inp.map keyOf).Nodup → out₁ = out₂) ∧
    (∀ (ls out₁ out₂ : List Listener), listSortRel (dedupByPortPid ls) out₁ →
      listSortRel (dedupByPortPid ls) out₂ → out₁ = out₂) := by
  have huniq : ∀ inp out₁ out₂ : List Listener,
      listSortRel inp out₁ → listSortRel inp out₂ →
      (inp.map keyOf).Nodup → out₁ = out₂ := by
    intro inp out₁ out₂ h1 h2 hnd
    have hperm : out₁.Perm out₂ := (h1.1.symm).trans h2.1
    have hnd1 : (out₁.map keyOf).Nodup := ((h1.1.map keyOf).nodup_iff).mp hnd
    exact sorted_perm_eq_of_nodup_keys out₁ out₂ hperm h1.2 h2.2 hnd1
  refine ⟨?_, ?_, ?_, ?_, huniq, ?_⟩
  · intro ls
    exact (dedupByPortPidAux_keys ls []).1
  · intro ls
    exact dedupByPortPidAux_sublist ls []
  · intro ls x hx
    exact (dedupByPortPidAux_first ls [] x hx).2
  · intro ls x hx
    rcases dedupByPortPidAux_covers ls [] x hx with h | h
    · exact absurd h (by simp)
    · exact h
  · intro ls out₁ out₂ h1 h2
    exact huniq (dedupByPortPid ls) out₁ out₂ h1 h2 (dedupByPortPidAux_keys ls []).1

/-- Witness for C9: two records sharing (3000, 42) collapse to the
first, and the first input record of that key is the kept one. -/
theorem C9_amended_dedup_and_sort_witness :
    [({ port := 3000, pid := 42, address := "127.0.0.1:3000" } : Listener),
     { port := 3000, pid := 42, address := "[::1]:3000" }].find?
      (fun y => decide (keyOf y =
        keyOf ({ port := 3000, pid := 42, address := "127.0.0.1:3000" } : Listener))) =
      some { port := 3000, pid := 42, address := "127.0.0.1:3000" } :=
  C9_amended_dedup_and_sort.2.2.1
    [{ port := 3000, pid := 42, address := "127.0.0.1:3000" },
     { port := 3000, pid := 42, address := "[::1]:3000" }]
    { port := 3000, pid := 42, address := "127.0.0.1:3000" }
    (by decide)

/-- C9 counterexample: for two distinct records sharing the key
(3000, 42), the swapped output satisfies the sort.Slice contract the
code relies on (it is a sorted permutation), yet the records do not
keep their input order, so the pipeline's sort is not the stable sort
the claim asserts. -/
theorem C9_counterexample_sort_not_stable :
    listSortRel
      [{ port := 3000, pid := 42, address := "127.0.0.1:3000" },
       { port := 3000, pid := 42, address := "[::1]:3000" }]
      [{ port := 3000, pid := 42, address := "[::1]:3000" },
       { port := 3000, pid := 42, address := "127.0.0.1:3000" }] ∧
    ¬ PreservesEqKeyOrder
      [{ port := 3000, pid := 42, address := "127.0.0.1:3000" },
       { port := 3000, pid := 42, address := "[::1]:3000" }]
      [{ port := 3000, pid := 42, address := "[::1]:3000" },
       { port := 3000, pid := 42, address := "127.0.0.1:3000" }] := by
  constructor
  · constructor
    · exact List.Perm.swap _ _ _
    · rw [SortedPortPid]
      refine List.pairwise_cons.mpr ⟨?_, List.pairwise_singleton _ _⟩
      intro y hy
      rw [List.mem_singleton] at hy
      subst hy
      rfl
  · intro h
    exact absurd (h (3000, 42)) (by decide)
